import Mathlib

/-!
Verification of the charm source model and publish pipeline of
`src/src/charm_source/sidecar.rs` (rust-libjuju).

Modelling conventions:
- Rust `HashMap<String, V>` values are modelled as association lists
  `List (String × V)`; `HashMap::get` is `lookupList`. A `HashMap` never holds
  duplicate keys, but none of the theorems below needs that assumption unless
  stated.
- Byte streams handled by the pipeline (tool stdout/stderr) are modelled as
  `List Char`, with byte `0x0a` as `'\n'` and byte `0x20` as `' '` (the streams
  the code slices are ASCII; `from_utf8` never fails in the model).
- Fallible Rust code returning `Result<T, JujuError>` is modelled with
  `Except JujuError` or, where the code may also `panic!` via
  `unwrap`/`expect`/`drain`/indexing, with the three-valued `Outcome`.
- External processes (`crate::cmd`, not under `src/`) are an oracle `Env`
  mapping an `Invocation` (tool + argument vector) to its result; executing
  code returns the ordered trace of invocations it issued.
-/

/-- One external-process invocation: tool name and argument vector. -/
structure Invocation where
  tool : String
  args : List String
  deriving DecidableEq, Repr

/-- Modelled from the spec: `crate::error::JujuError` is not under `src/`.
Section 7 of the spec gives the error taxonomy: (a) I/O errors, (b)
schema-parse errors, (c) resource-resolution errors carrying resource name and
charm name, (d) external-process errors reporting the failing tool invocation.
The `resourceNotFound` shape `(resource, charm)` is confirmed by the
construction `JujuError::ResourceNotFound(k.clone(), self.metadata.name.clone())`
in `sidecar.rs`. -/
inductive JujuError where
  | ioError (msg : String)
  | yamlError (msg : String)
  | resourceNotFound (resource charm : String)
  | processError (inv : Invocation)
  deriving DecidableEq, Repr

/-- Result of running a code path that can return a value, return an error,
or `panic!` (Rust `unwrap`/`expect`/out-of-range `drain`/map indexing). -/
inductive Outcome (α : Type) where
  | ok (a : α)
  | err (e : JujuError)
  | panicked
  deriving DecidableEq, Repr

/-- Functorial map on `Outcome`. -/
def Outcome.map {α β : Type} (f : α → β) : Outcome α → Outcome β
  | .ok a => .ok (f a)
  | .err e => .err e
  | .panicked => .panicked

/-- Association-list lookup, the model of `HashMap::get` on the first matching
key. -/
def lookupList {α : Type} (k : String) : List (String × α) → Option α
  | [] => none
  | (k', v) :: rest => if k' = k then some v else lookupList k rest

/-- Config option as defined in config.yaml (`enum ConfigOption`). -/
inductive ConfigOption where
  | string (default : Option String) (description : String)
  | integer (default : Int) (description : String)
  | boolean (default : Bool) (description : String)
  deriving DecidableEq, Repr

/-- A charm's config.yaml file (`struct Config`). -/
structure Config where
  options : List (String × ConfigOption)
  deriving DecidableEq, Repr

/-- `struct Container`: references one backing resource by name. -/
structure Container where
  resource : String
  deriving DecidableEq, Repr

/-- `enum ResourceType`: closed set of resource kinds. -/
inductive ResourceType where
  | file
  | ociImage
  | pypi
  | url
  deriving DecidableEq, Repr

/-- `struct Resource`: kind, description, optional upstream default. -/
structure Resource where
  kind : ResourceType
  description : String
  upstream_source : Option String
  deriving DecidableEq, Repr

/-- `enum RelationScope`. -/
inductive RelationScope where
  | global
  | container
  deriving DecidableEq, Repr

/-- `struct Interface`: a relation endpoint. -/
structure Interface where
  interface : String
  scope : Option RelationScope
  schema : Option String
  versions : List String
  deriving DecidableEq, Repr

/-- A charm's metadata.yaml file (`struct Metadata`). -/
structure Metadata where
  name : String
  description : String
  summary : String
  containers : List (String × Container)
  resources : List (String × Resource)
  requires : List (String × Interface)
  provides : List (String × Interface)
  deriving DecidableEq, Repr

/-- `struct CharmSource`: source path, optional config, mandatory metadata. -/
structure CharmSource where
  source : String
  config : Option Config
  metadata : Metadata
  deriving DecidableEq, Repr

/-- Body of `resources_with_defaults` (sidecar.rs lines 359-371): for each
declared resource `(k, v)` the Rust `match (configured.get(k), &v.upstream_source)`
with arms `(Some(val), _) | (_, Some(val)) => Ok((k, val))` (or-patterns tried
left to right, so a caller-supplied value takes precedence) and
`(None, None) => Err(ResourceNotFound(k, name))`; `collect` over `Result`
stops at the first error. -/
def rwdGo (name : String) (configured : List (String × String)) :
    List (String × Resource) → Except JujuError (List (String × String))
  | [] => .ok []
  | (k, r) :: rest =>
    match lookupList k configured, r.upstream_source with
    | some v, _ => (rwdGo name configured rest).map (fun out => (k, v) :: out)
    | none, some v => (rwdGo name configured rest).map (fun out => (k, v) :: out)
    | none, none => .error (.resourceNotFound k name)

/-- `CharmSource::resources_with_defaults` (sidecar.rs lines 355-372): merge
declared resources with caller-supplied values. -/
def resources_with_defaults (cs : CharmSource) (configured : List (String × String)) :
    Except JujuError (List (String × String)) :=
  rwdGo cs.metadata.name configured cs.metadata.resources

theorem rwdGo_total (name : String) (configured : List (String × String)) :
    ∀ rs : List (String × Resource),
      (∀ kr ∈ rs, (lookupList kr.1 configured).isSome ∨ kr.2.upstream_source.isSome) →
      ∃ out, rwdGo name configured rs = .ok out ∧
        out.map Prod.fst = rs.map Prod.fst ∧
        (∀ k r v, (k, r) ∈ rs → lookupList k configured = some v → (k, v) ∈ out) ∧
        (∀ k r v, (k, r) ∈ rs → lookupList k configured = none →
          r.upstream_source = some v → (k, v) ∈ out)
  | [], _ => ⟨[], rfl, rfl, by simp, by simp⟩
  | (k₀, r₀) :: rest, h => by
    obtain ⟨out, hout, hkeys, hsup, hdef⟩ :=
      rwdGo_total name configured rest (fun kr hkr => h kr (List.mem_cons_of_mem _ hkr))
    have h₀ := h (k₀, r₀) (List.mem_cons_self _ _)
    cases hc : lookupList k₀ configured with
    | some v₀ =>
      refine ⟨(k₀, v₀) :: out, ?_, ?_, ?_, ?_⟩
      · simp [rwdGo, hc, hout, Except.map]
      · simp [hkeys]
      · intro k r v hkr hl
        rcases List.mem_cons.1 hkr with heq | hm
        · injection heq with h1 h2
          subst h1
          rw [hc] at hl
          injection hl with h3
          subst h3
          exact List.mem_cons_self _ _
        · exact List.mem_cons_of_mem _ (hsup k r v hm hl)
      · intro k r v hkr hl hu
        rcases List.mem_cons.1 hkr with heq | hm
        · injection heq with h1 h2
          subst h1
          rw [hc] at hl
          exact absurd hl (by simp)
        · exact List.mem_cons_of_mem _ (hdef k r v hm hl hu)
    | none =>
      rw [hc] at h₀
      cases hu : r₀.upstream_source with
      | none => rw [hu] at h₀; simp at h₀
      | some v₀ =>
        refine ⟨(k₀, v₀) :: out, ?_, ?_, ?_, ?_⟩
        · simp [rwdGo, hc, hu, hout, Except.map]
        · simp [hkeys]
        · intro k r v hkr hl
          rcases List.mem_cons.1 hkr with heq | hm
          · injection heq with h1 h2
            subst h1
            rw [hc] at hl
            exact absurd hl (by simp)
          · exact List.mem_cons_of_mem _ (hsup k r v hm hl)
        · intro k r v hkr hl hv
          rcases List.mem_cons.1 hkr with heq | hm
          · injection heq with h1 h2
            subst h1; subst h2
            rw [hu] at hv
            injection hv with h3
            subst h3
            exact List.mem_cons_self _ _
          · exact List.mem_cons_of_mem _ (hdef k r v hm hl hv)

/-- C1: when every declared resource name has a caller-supplied value or a
declared upstream default, `resources_with_defaults` returns `Ok` with a map
whose keys are exactly the declared resource names (in declaration order),
in which each name maps to the caller-supplied value when present and
otherwise to the declared upstream default, and no undeclared name appears. -/
theorem resources_with_defaults_complete (cs : CharmSource)
    (configured : List (String × String))
    (h : ∀ kr ∈ cs.metadata.resources,
      (lookupList kr.1 configured).isSome ∨ kr.2.upstream_source.isSome) :
    ∃ out, resources_with_defaults cs configured = .ok out ∧
      out.map Prod.fst = cs.metadata.resources.map Prod.fst ∧
      (∀ k r v, (k, r) ∈ cs.metadata.resources →
        lookupList k configured = some v → (k, v) ∈ out) ∧
      (∀ k r v, (k, r) ∈ cs.metadata.resources → lookupList k configured = none →
        r.upstream_source = some v → (k, v) ∈ out) ∧
      (∀ k v, (k, v) ∈ out → k ∈ cs.metadata.resources.map Prod.fst) := by
  obtain ⟨out, hout, hkeys, hsup, hdef⟩ :=
    rwdGo_total cs.metadata.name configured cs.metadata.resources h
  refine ⟨out, hout, hkeys, hsup, hdef, ?_⟩
  intro k v hm
  rw [← hkeys]
  exact List.mem_map_of_mem Prod.fst hm

/-- Example charm used by the witnesses: one oci-image resource `img` with an
upstream default, one file resource `data` without one. -/
def csEx : CharmSource :=
  { source := "charms/myapp"
    config := none
    metadata :=
      { name := "myapp"
        description := "desc"
        summary := "sum"
        containers := []
        resources :=
          [("img", ⟨ResourceType.ociImage, "x", some "ubuntu:20.04"⟩),
           ("data", ⟨ResourceType.file, "d", none⟩)]
        requires := []
        provides := [] } }

theorem resources_with_defaults_complete_witness :
    (∀ kr ∈ csEx.metadata.resources,
      (lookupList kr.1 [("data", "local.bin")]).isSome ∨ kr.2.upstream_source.isSome) ∧
    ∃ out, resources_with_defaults csEx [("data", "local.bin")] = .ok out ∧
      out.map Prod.fst = csEx.metadata.resources.map Prod.fst ∧
      (∀ k r v, (k, r) ∈ csEx.metadata.resources →
        lookupList k [("data", "local.bin")] = some v → (k, v) ∈ out) ∧
      (∀ k r v, (k, r) ∈ csEx.metadata.resources →
        lookupList k [("data", "local.bin")] = none →
        r.upstream_source = some v → (k, v) ∈ out) ∧
      (∀ k v, (k, v) ∈ out → k ∈ csEx.metadata.resources.map Prod.fst) :=
  ⟨by decide, resources_with_defaults_complete csEx [("data", "local.bin")] (by decide)⟩

theorem rwdGo_missing (name : String) (configured : List (String × String)) :
    ∀ rs : List (String × Resource),
      (∃ kr ∈ rs, lookupList kr.1 configured = none ∧ kr.2.upstream_source = none) →
      ∃ k r, (k, r) ∈ rs ∧ lookupList k configured = none ∧ r.upstream_source = none ∧
        rwdGo name configured rs = .error (.resourceNotFound k name)
  | [], h => by simp at h
  | (k₀, r₀) :: rest, h => by
    cases hc : lookupList k₀ configured with
    | some v₀ =>
      obtain ⟨kr, hkr, hl, hu⟩ := h
      rcases List.mem_cons.1 hkr with rfl | hm
      · rw [hc] at hl; exact absurd hl (by simp)
      · obtain ⟨k, r, hmem, hl', hu', heq⟩ := rwdGo_missing name configured rest ⟨kr, hm, hl, hu⟩
        exact ⟨k, r, List.mem_cons_of_mem _ hmem, hl', hu',
          by simp [rwdGo, hc, heq, Except.map]⟩
    | none =>
      cases hu : r₀.upstream_source with
      | some v₀ =>
        obtain ⟨kr, hkr, hl, hu'⟩ := h
        rcases List.mem_cons.1 hkr with rfl | hm
        · rw [hu] at hu'; exact absurd hu' (by simp)
        · obtain ⟨k, r, hmem, hl', hu'', heq⟩ := rwdGo_missing name configured rest ⟨kr, hm, hl, hu'⟩
          exact ⟨k, r, List.mem_cons_of_mem _ hmem, hl', hu'',
            by simp [rwdGo, hc, hu, heq, Except.map]⟩
      | none =>
        exact ⟨k₀, r₀, List.mem_cons_self _ _, hc, hu, by simp [rwdGo, hc, hu]⟩

/-- C2: when some declared resource neither appears in the caller-supplied map
nor has a declared upstream default, `resources_with_defaults` returns a
`ResourceNotFound` error carrying the name of such a resource and the charm's
name. -/
theorem resources_with_defaults_missing_error (cs : CharmSource)
    (configured : List (String × String)) (k₀ : String) (r₀ : Resource)
    (hmem : (k₀, r₀) ∈ cs.metadata.resources)
    (hc : lookupList k₀ configured = none)
    (hu : r₀.upstream_source = none) :
    ∃ k r, (k, r) ∈ cs.metadata.resources ∧ lookupList k configured = none ∧
      r.upstream_source = none ∧
      resources_with_defaults cs configured =
        .error (.resourceNotFound k cs.metadata.name) :=
  rwdGo_missing cs.metadata.name configured cs.metadata.resources ⟨(k₀, r₀), hmem, hc, hu⟩

theorem resources_with_defaults_missing_error_witness :
    (("data", (⟨ResourceType.file, "d", none⟩ : Resource)) ∈ csEx.metadata.resources ∧
      lookupList "data" ([] : List (String × String)) = none) ∧
    ∃ k r, (k, r) ∈ csEx.metadata.resources ∧ lookupList k ([] : List (String × String)) = none ∧
      r.upstream_source = none ∧
      resources_with_defaults csEx [] = .error (.resourceNotFound k csEx.metadata.name) :=
  ⟨⟨by decide, rfl⟩,
    resources_with_defaults_missing_error csEx [] "data" ⟨ResourceType.file, "d", none⟩
      (by decide) rfl rfl⟩

/-- Splits a list of characters at the first occurrence of `':'` immediately
followed by `' '`, returning the parts before and after the separator. -/
def splitColonSpace : List Char → Option (List Char × List Char)
  | [] => none
  | ':' :: ' ' :: rest => some ([], rest)
  | c :: rest => (splitColonSpace rest).map (fun p => (c :: p.1, p.2))

/-- Model of `serde_yaml::from_slice::<HashMap<String, String>>` restricted to
the single-line documents the push stage feeds it: a line `key: value` parses
to the one-entry mapping, anything without a `": "` separator is not a mapping
and fails. -/
def parseYamlLine (line : List Char) : Option (List (String × String)) :=
  (splitColonSpace line).map (fun p => [(String.mk p.1, String.mk p.2)])

/-- Output handling of `CharmSource::push` (sidecar.rs lines 228-235):
`output.truncate(output.iter().position(|&x| x == 0x0a).unwrap())` panics when
the stream holds no newline byte and otherwise keeps exactly the bytes before
the first newline; the kept line is parsed as YAML (`?` propagates a parse
error) and indexing `push_metadata["url"]` panics when the `url` key is
absent. -/
def parsePushOutput (output : List Char) : Outcome String :=
  if '\n' ∈ output then
    match parseYamlLine (output.takeWhile (fun c => c ≠ '\n')) with
    | none => .err (.yamlError "push output not yaml")
    | some kvs =>
      match lookupList "url" kvs with
      | none => .panicked
      | some url => .ok url
  else .panicked

theorem takeWhile_append_cons {p : Char → Bool} (l : List Char) (x : Char)
    (r : List Char) (hl : ∀ c ∈ l, p c = true) (hx : p x = false) :
    (l ++ x :: r).takeWhile p = l := by
  induction l with
  | nil => simp [List.takeWhile, hx]
  | cons c cs ih =>
    have hc : p c = true := hl c (List.mem_cons_self _ _)
    simp only [List.cons_append, List.takeWhile, hc]
    exact congrArg (c :: ·) (ih (fun d hd => hl d (List.mem_cons_of_mem _ hd)))

theorem parsePushOutput_split (line rest : List Char) (h : '\n' ∉ line) :
    parsePushOutput (line ++ '\n' :: rest) =
      (match parseYamlLine line with
       | none => Outcome.err (.yamlError "push output not yaml")
       | some kvs =>
         match lookupList "url" kvs with
         | none => Outcome.panicked
         | some url => Outcome.ok url) := by
  have hmem : '\n' ∈ line ++ '\n' :: rest := by simp
  have htw : (line ++ '\n' :: rest).takeWhile (fun c => c ≠ '\n') = line :=
    takeWhile_append_cons line '\n' rest
      (fun c hc => by
        have hne : c ≠ '\n' := fun heq => h (heq ▸ hc)
        simp [hne])
      (by simp)
  unfold parsePushOutput
  rw [if_pos hmem, htw]

/-- C3: the push stage parses only the bytes before the first newline as the
structured record and returns that record's `url` field; every byte after the
first newline is discarded. In particular the stream
`"url: cs:~ns/app-1\n<docker push logs...>"` yields `cs:~ns/app-1`. -/
theorem push_output_first_line (line rest : List Char) (h : '\n' ∉ line) :
    parsePushOutput (line ++ '\n' :: rest) = parsePushOutput (line ++ ['\n']) ∧
    (∀ kvs url, parseYamlLine line = some kvs → lookupList "url" kvs = some url →
      parsePushOutput (line ++ '\n' :: rest) = .ok url) ∧
    parsePushOutput ("url: cs:~ns/app-1\n<docker push logs...>".toList) =
      .ok "cs:~ns/app-1" := by
  refine ⟨?_, ?_, by decide⟩
  · rw [parsePushOutput_split line rest h, parsePushOutput_split line [] h]
  · intro kvs url hkvs hurl
    rw [parsePushOutput_split line rest h, hkvs]
    simp [hurl]

theorem push_output_first_line_witness :
    ('\n' ∉ ("url: cs:~ns/app-1".toList)) ∧
    (parsePushOutput ("url: cs:~ns/app-1".toList ++ '\n' :: "<logs>".toList) =
      parsePushOutput ("url: cs:~ns/app-1".toList ++ ['\n']) ∧
    (∀ kvs url, parseYamlLine ("url: cs:~ns/app-1".toList) = some kvs →
      lookupList "url" kvs = some url →
      parsePushOutput ("url: cs:~ns/app-1".toList ++ '\n' :: "<logs>".toList) = .ok url) ∧
    parsePushOutput ("url: cs:~ns/app-1\n<docker push logs...>".toList) =
      .ok "cs:~ns/app-1") :=
  ⟨by decide, push_output_first_line ("url: cs:~ns/app-1".toList) ("<logs>".toList) (by decide)⟩

/-- Modelled from the spec: the Process Invoker (`crate::cmd`, not under
`src/`) and the scoped temporary directory. Section 6 gives `run`,
`get_output` and `get_stderr`, each spawning a tool with an argument vector
and failing if the tool is missing or exits non-zero; failures report the
failing tool invocation. The oracle fixes the result of every possible
invocation, `tempDir` the result of `TempDir::new()`, and `cwd` the value of
`current_dir()`. -/
structure Env where
  tempDir : Except String String
  cwd : String
  runOk : Invocation → Bool
  outputResult : Invocation → Option (List Char)
  stderrResult : Invocation → Option (List Char)

/-- `CharmSource::artifact_path` (sidecar.rs lines 188-192): the artifact
`{name}_ubuntu-20.04-amd64.charm` in the current working directory
(`CharmURL::from_path` on that path, rendered back as the path; `CharmURL` is
not under `src/` and is modelled from spec section 6's artifact naming
convention). -/
def artifact_path (name cwd : String) : String :=
  cwd ++ "/" ++ name ++ "_ubuntu-20.04-amd64.charm"

/-- Argument vector of `CharmSource::build` (sidecar.rs lines 177-186). -/
def packArgs (cs : CharmSource) (destructive_mode : Bool) : List String :=
  ["pack", "-p", cs.source] ++ (if destructive_mode then ["--destructive-mode"] else [])

/-- The `--resource name=value` pairs chained onto the store push command
(sidecar.rs lines 206-214). -/
def resourcePairArgs : List (String × String) → List String
  | [] => []
  | (k, v) :: rest => "--resource" :: (k ++ "=" ++ v) :: resourcePairArgs rest

/-- The pull loop of `CharmSource::push` (sidecar.rs lines 218-226): for every
resolved resource, look its declaration up (`.expect("Must exist!")` panics if
absent) and `docker pull` the value when its kind is `OciImage`; a failing
pull propagates via `?`. -/
def dockerPulls (env : Env) (md : Metadata) :
    List (String × String) → Outcome Unit × List Invocation
  | [] => (.ok (), [])
  | (name, value) :: rest =>
    match lookupList name md.resources with
    | none => (.panicked, [])
    | some r =>
      if r.kind = ResourceType.ociImage then
        if env.runOk ⟨"docker", ["pull", value]⟩ then
          let p := dockerPulls env md rest
          (p.1, ⟨"docker", ["pull", value]⟩ :: p.2)
        else (.err (.processError ⟨"docker", ["pull", value]⟩), [⟨"docker", ["pull", value]⟩])
      else dockerPulls env md rest

/-- `CharmSource::push` (sidecar.rs lines 193-253): unzip the artifact into a
temporary directory, resolve resources, pull oci images, run the store push
tool, extract the revision URL from its first output line, then best-effort
tag the revision with the git commit — a failure of `git rev-parse HEAD` is
printed and swallowed, while a failure of the `charm set` call propagates via
`?`. Returns the outcome together with the ordered trace of invocations
issued. -/
def push (env : Env) (cs : CharmSource) (cs_url : String)
    (configured : List (String × String)) : Outcome String × List Invocation :=
  match env.tempDir with
  | .error e => (.err (.ioError e), [])
  | .ok dirPath =>
    let unzipInv : Invocation := ⟨"unzip", [artifact_path cs.metadata.name env.cwd, "-d", dirPath]⟩
    if env.runOk unzipInv then
      match resources_with_defaults cs configured with
      | .error e => (.err e, [unzipInv])
      | .ok resources =>
        let pullTr := (dockerPulls env cs.metadata resources).2
        match (dockerPulls env cs.metadata resources).1 with
        | .ok _ =>
          let pushInv : Invocation := ⟨"charm", "push" :: dirPath :: cs_url :: resourcePairArgs resources⟩
          match env.outputResult pushInv with
          | none => (.err (.processError pushInv), unzipInv :: pullTr ++ [pushInv])
          | some output =>
            match parsePushOutput output with
            | .ok rev_url =>
              match env.outputResult ⟨"git", ["rev-parse", "HEAD"]⟩ with
              | some rev_output =>
                let setInv : Invocation := ⟨"charm", ["set", rev_url, "commit=" ++ String.mk rev_output]⟩
                if env.runOk setInv then
                  (.ok rev_url, unzipInv :: pullTr ++ [pushInv, ⟨"git", ["rev-parse", "HEAD"]⟩, setInv])
                else
                  (.err (.processError setInv),
                    unzipInv :: pullTr ++ [pushInv, ⟨"git", ["rev-parse", "HEAD"]⟩, setInv])
              | none =>
                (.ok rev_url, unzipInv :: pullTr ++ [pushInv, ⟨"git", ["rev-parse", "HEAD"]⟩])
            | .err e => (.err e, unzipInv :: pullTr ++ [pushInv])
            | .panicked => (.panicked, unzipInv :: pullTr ++ [pushInv])
        | .err e => (.err e, unzipInv :: pullTr)
        | .panicked => (.panicked, unzipInv :: pullTr)
    else (.err (.processError unzipInv), [unzipInv])

/-- Example charm with no declared resources, used by pipeline fixtures. -/
def csPlain : CharmSource :=
  { source := "charms/app"
    config := none
    metadata :=
      { name := "app"
        description := "d"
        summary := "s"
        containers := []
        resources := []
        requires := []
        provides := [] } }

/-- Fixture: every call succeeds except `git rev-parse HEAD`. -/
def envGitFails : Env :=
  { tempDir := .ok "/tmp/t"
    cwd := "/cwd"
    runOk := fun _ => true
    outputResult := fun inv =>
      if inv.tool = "git" then none else some ("url: cs:app-1\nlogs".toList)
    stderrResult := fun _ => none }

/-- Fixture: every call succeeds except the `charm set` tagging call. -/
def envSetFails : Env :=
  { tempDir := .ok "/tmp/t"
    cwd := "/cwd"
    runOk := fun inv => inv.args.head? != some "set"
    outputResult := fun inv =>
      if inv.tool = "git" then some ("abc".toList) else some ("url: cs:app-1\nlogs".toList)
    stderrResult := fun _ => none }

/-- Counterexample to C4: with the revision URL `cs:app-1` successfully
extracted, a failure of the `charm set` tagging call makes `push` return an
error instead of `Ok` — only the commit lookup, not the tagging call, is
best-effort (the `?` on sidecar.rs line 242 propagates). -/
theorem push_tagging_failure_aborts :
    parsePushOutput ("url: cs:app-1\nlogs".toList) = .ok "cs:app-1" ∧
    (push envSetFails csPlain "cs:app" []).1 =
      .err (.processError ⟨"charm", ["set", "cs:app-1", "commit=abc"]⟩) := by
  constructor
  · decide
  · decide

/-- C4 as amended: in a run of `push` that has successfully extracted a
revision URL, a failure of the version-control commit lookup is swallowed and
`push` still returns `Ok` with the revision URL, but a failure of the
subsequent `charm set` tagging call aborts `push` with that call's error. -/
theorem push_commit_lookup_best_effort (env : Env) (cs : CharmSource)
    (cs_url : String) (configured : List (String × String)) (dirPath : String)
    (resources : List (String × String)) (pullTr : List Invocation)
    (output : List Char) (rev_url : String)
    (htmp : env.tempDir = .ok dirPath)
    (hunzip : env.runOk ⟨"unzip", [artifact_path cs.metadata.name env.cwd, "-d", dirPath]⟩ = true)
    (hrwd : resources_with_defaults cs configured = .ok resources)
    (hpull : dockerPulls env cs.metadata resources = (.ok (), pullTr))
    (hout : env.outputResult
      ⟨"charm", "push" :: dirPath :: cs_url :: resourcePairArgs resources⟩ = some output)
    (hparse : parsePushOutput output = .ok rev_url) :
    (env.outputResult ⟨"git", ["rev-parse", "HEAD"]⟩ = none →
      (push env cs cs_url configured).1 = .ok rev_url) ∧
    (∀ rev_output, env.outputResult ⟨"git", ["rev-parse", "HEAD"]⟩ = some rev_output →
      env.runOk ⟨"charm", ["set", rev_url, "commit=" ++ String.mk rev_output]⟩ = false →
      (push env cs cs_url configured).1 =
        .err (.processError ⟨"charm", ["set", rev_url, "commit=" ++ String.mk rev_output]⟩)) := by
  constructor
  · intro hgit
    simp only [push, htmp, hunzip, hrwd, hpull, hout, hparse, hgit, if_true]
  · intro rev_output hgit hset
    simp only [push, htmp, hunzip, hrwd, hpull, hout, hparse, hgit, hset, if_true,
      Bool.false_eq_true, if_false]

theorem push_commit_lookup_best_effort_witness :
    (push envGitFails csPlain "cs:app" []).1 = .ok "cs:app-1" ∧
    (push envSetFails csPlain "cs:app" []).1 =
      .err (.processError ⟨"charm", ["set", "cs:app-1", "commit=" ++ String.mk "abc".toList]⟩) := by
  constructor
  · exact (push_commit_lookup_best_effort envGitFails csPlain "cs:app" [] "/tmp/t" [] []
      ("url: cs:app-1\nlogs".toList) "cs:app-1" rfl rfl rfl rfl (by decide) (by decide)).1
      (by decide)
  · exact (push_commit_lookup_best_effort envSetFails csPlain "cs:app" [] "/tmp/t" [] []
      ("url: cs:app-1\nlogs".toList) "cs:app-1" rfl rfl rfl rfl (by decide) (by decide)).2
      ("abc".toList) (by decide) (by decide)

/-- Fixture: the push tool's output stream holds no newline byte. -/
def envNoNewline : Env :=
  { tempDir := .ok "/tmp/t"
    cwd := "/cwd"
    runOk := fun _ => true
    outputResult := fun _ => some ("docker push logs only".toList)
    stderrResult := fun _ => none }

/-- Counterexample to C5: on a push-tool output stream with no newline byte,
`push` panics (the `unwrap` on `position(|&x| x == 0x0a)` at sidecar.rs line
233) instead of returning a typed failure to the caller. -/
theorem push_missing_newline_cex :
    (push envNoNewline csPlain "cs:app" []).1 = Outcome.panicked := by decide

/-- C5 as amended: when the push-tool output stream contains no newline byte,
the push stage aborts by panicking (no typed error value is returned to the
caller). -/
theorem push_missing_newline_panics (env : Env) (cs : CharmSource)
    (cs_url : String) (configured : List (String × String)) (dirPath : String)
    (resources : List (String × String)) (pullTr : List Invocation)
    (output : List Char)
    (htmp : env.tempDir = .ok dirPath)
    (hunzip : env.runOk ⟨"unzip", [artifact_path cs.metadata.name env.cwd, "-d", dirPath]⟩ = true)
    (hrwd : resources_with_defaults cs configured = .ok resources)
    (hpull : dockerPulls env cs.metadata resources = (.ok (), pullTr))
    (hout : env.outputResult
      ⟨"charm", "push" :: dirPath :: cs_url :: resourcePairArgs resources⟩ = some output)
    (hnl : '\n' ∉ output) :
    (push env cs cs_url configured).1 = Outcome.panicked := by
  have hparse : parsePushOutput output = .panicked := by
    unfold parsePushOutput
    rw [if_neg hnl]
  simp only [push, htmp, hunzip, hrwd, hpull, hout, hparse, if_true]

theorem push_missing_newline_panics_witness :
    (push envNoNewline csPlain "cs:app" []).1 = Outcome.panicked :=
  push_missing_newline_panics envNoNewline csPlain "cs:app" [] "/tmp/t" [] []
    ("docker push logs only".toList) rfl rfl rfl rfl (by decide) (by decide)

/-- The `--resource name-revision` arguments of the release command
(sidecar.rs lines 262-271): indexing `r["name"]` / `r["revision"]` panics
(`none` here) when a returned record lacks either key. -/
def releaseResourceArgs : List (List (String × String)) → Option (List String)
  | [] => some []
  | r :: rest =>
    match lookupList "name" r, lookupList "revision" r with
    | some n, some rv =>
      (releaseResourceArgs rest).map (fun l => "--resource" :: (n ++ "-" ++ rv) :: l)
    | _, _ => none

/-- `CharmSource::promote` (sidecar.rs lines 256-274): query
`charm list-resources <rev_url> --format yaml`, parse the output as a list of
records (`pRL` models `serde_yaml::from_slice::<Vec<HashMap<String, String>>>`),
then run `charm release <rev_url> --channel <to>` with one
`--resource name-revision` pair per record. -/
def promote (pRL : List Char → Option (List (List (String × String)))) (env : Env)
    (rev_url channel : String) : Outcome Unit × List Invocation :=
  let listInv : Invocation := ⟨"charm", ["list-resources", rev_url, "--format", "yaml"]⟩
  match env.outputResult listInv with
  | none => (.err (.processError listInv), [listInv])
  | some out =>
    match pRL out with
    | none => (.err (.yamlError "list-resources output"), [listInv])
    | some resources =>
      match releaseResourceArgs resources with
      | none => (.panicked, [listInv])
      | some resArgs =>
        let relInv : Invocation := ⟨"charm", "release" :: rev_url :: "--channel" :: channel :: resArgs⟩
        if env.runOk relInv then (.ok (), [listInv, relInv])
        else (.err (.processError relInv), [listInv, relInv])

/-- The channel loop of `upload_charm_store` (sidecar.rs lines 286-288):
`for channel in to { self.promote(&rev_url, channel)?; }` — sequential in the
caller-supplied order, stopping at the first failure. -/
def promoteLoop (pRL : List Char → Option (List (List (String × String)))) (env : Env)
    (rev_url : String) : List String → Outcome Unit × List Invocation
  | [] => (.ok (), [])
  | ch :: rest =>
    match promote pRL env rev_url ch with
    | (.ok _, tr) =>
      (⟨(promoteLoop pRL env rev_url rest).1, tr ++ (promoteLoop pRL env rev_url rest).2⟩ :
        Outcome Unit × List Invocation)
    | (.err e, tr) => (.err e, tr)
    | (.panicked, tr) => (.panicked, tr)

/-- `CharmSource::upload_charm_store` (sidecar.rs lines 276-291): build, push,
then promote each requested channel in order. -/
def upload_charm_store (pRL : List Char → Option (List (List (String × String))))
    (env : Env) (cs : CharmSource) (url : String) (configured : List (String × String))
    (channels : List String) (destructive_mode : Bool) : Outcome String × List Invocation :=
  let buildInv : Invocation := ⟨"charmcraft", packArgs cs destructive_mode⟩
  if env.runOk buildInv then
    match push env cs url configured with
    | (.ok rev_url, ptr) =>
      match promoteLoop pRL env rev_url channels with
      | (.ok _, ltr) => (.ok rev_url, buildInv :: ptr ++ ltr)
      | (.err e, ltr) => (.err e, buildInv :: ptr ++ ltr)
      | (.panicked, ltr) => (.panicked, buildInv :: ptr ++ ltr)
    | (.err e, ptr) => (.err e, buildInv :: ptr)
    | (.panicked, ptr) => (.panicked, buildInv :: ptr)
  else (.err (.processError buildInv), [buildInv])

theorem dockerPulls_tool (env : Env) (md : Metadata) :
    ∀ (rs : List (String × String)) (inv : Invocation),
      inv ∈ (dockerPulls env md rs).2 → inv.tool = "docker"
  | [], inv, h => by simp [dockerPulls] at h
  | (name, value) :: rest, inv, h => by
    unfold dockerPulls at h
    split at h
    · simp at h
    · split at h
      · split at h
        · simp only [List.mem_cons] at h
          rcases h with rfl | h
          · rfl
          · exact dockerPulls_tool env md rest inv h
        · simp at h
          subst h
          rfl
      · exact dockerPulls_tool env md rest inv h

theorem push_trace_tools (env : Env) (cs : CharmSource) (cs_url : String)
    (configured : List (String × String)) :
    ∀ inv ∈ (push env cs cs_url configured).2,
      inv.tool = "unzip" ∨ inv.tool = "docker" ∨ inv.tool = "git" ∨
      inv.args.head? = some "push" ∨ inv.args.head? = some "set" := by
  intro inv h
  unfold push at h
  split at h
  · simp at h
  · try simp only [] at h
    repeat' split at h
    all_goals
      try simp only [List.mem_cons, List.mem_append, List.mem_singleton,
        List.not_mem_nil, or_false, false_or] at h
    all_goals
      repeat'
        first
        | (subst h
           first
           | exact Or.inl rfl
           | exact Or.inr (Or.inr (Or.inl rfl))
           | exact Or.inr (Or.inr (Or.inr (Or.inl rfl)))
           | exact Or.inr (Or.inr (Or.inr (Or.inr rfl))))
        | exact Or.inr (Or.inl (dockerPulls_tool env cs.metadata _ inv h))
        | (rcases h with h | h)

theorem promote_trace (pRL : List Char → Option (List (List (String × String))))
    (env : Env) (rev_url channel : String) :
    ∀ inv ∈ (promote pRL env rev_url channel).2,
      inv = ⟨"charm", ["list-resources", rev_url, "--format", "yaml"]⟩ ∨
      ∃ resArgs, inv = ⟨"charm", "release" :: rev_url :: "--channel" :: channel :: resArgs⟩ := by
  intro inv h
  unfold promote at h
  try simp only [] at h
  repeat' split at h
  all_goals
    try simp only [List.mem_cons, List.mem_singleton, List.not_mem_nil, or_false] at h
  all_goals
    first
    | exact Or.inl h
    | (rcases h with rfl | rfl
       · exact Or.inl rfl
       · exact Or.inr ⟨_, rfl⟩)

theorem promote_ok_release (pRL : List Char → Option (List (List (String × String))))
    (env : Env) (rev_url channel : String)
    (h : (promote pRL env rev_url channel).1 = .ok ()) :
    ∃ resArgs, (⟨"charm", "release" :: rev_url :: "--channel" :: channel :: resArgs⟩ : Invocation)
      ∈ (promote pRL env rev_url channel).2 := by
  cases ho : env.outputResult ⟨"charm", ["list-resources", rev_url, "--format", "yaml"]⟩ with
  | none => simp [promote, ho] at h
  | some out =>
    cases hp : pRL out with
    | none => simp [promote, ho, hp] at h
    | some resources =>
      cases hr : releaseResourceArgs resources with
      | none => simp [promote, ho, hp, hr] at h
      | some resArgs =>
        cases hrun : env.runOk
            ⟨"charm", "release" :: rev_url :: "--channel" :: channel :: resArgs⟩ with
        | false => simp [promote, ho, hp, hr, hrun] at h
        | true => exact ⟨resArgs, by simp [promote, ho, hp, hr, hrun]⟩

theorem promoteLoop_ok_prefix (pRL : List Char → Option (List (List (String × String))))
    (env : Env) (rev_url : String) :
    ∀ (as rest : List String),
      (∀ a ∈ as, (promote pRL env rev_url a).1 = .ok ()) →
      ∃ tras, promoteLoop pRL env rev_url (as ++ rest) =
          ((promoteLoop pRL env rev_url rest).1, tras ++ (promoteLoop pRL env rev_url rest).2) ∧
        (∀ a ∈ as, ∃ resArgs,
          (⟨"charm", "release" :: rev_url :: "--channel" :: a :: resArgs⟩ : Invocation) ∈ tras) ∧
        (∀ inv ∈ tras, ∃ a ∈ as, inv ∈ (promote pRL env rev_url a).2)
  | [], rest, _ => ⟨[], by simp, by simp, by simp⟩
  | a :: as', rest, h => by
    have ha : (promote pRL env rev_url a).1 = .ok () := h a (List.mem_cons_self _ _)
    obtain ⟨tras, hloop, hrel, hsrc⟩ := promoteLoop_ok_prefix pRL env rev_url as' rest
      (fun b hb => h b (List.mem_cons_of_mem _ hb))
    have heq : promote pRL env rev_url a = (Outcome.ok (), (promote pRL env rev_url a).2) :=
      Prod.ext_iff.mpr ⟨ha, rfl⟩
    refine ⟨(promote pRL env rev_url a).2 ++ tras, ?_, ?_, ?_⟩
    · show promoteLoop pRL env rev_url (a :: (as' ++ rest)) = _
      rw [show promoteLoop pRL env rev_url (a :: (as' ++ rest)) =
          (match promote pRL env rev_url a with
           | (.ok _, tr) =>
             (⟨(promoteLoop pRL env rev_url (as' ++ rest)).1,
               tr ++ (promoteLoop pRL env rev_url (as' ++ rest)).2⟩ :
               Outcome Unit × List Invocation)
           | (.err e, tr) => (.err e, tr)
           | (.panicked, tr) => (.panicked, tr)) from rfl]
      rw [heq, hloop]
      simp [List.append_assoc]
    · intro b hb
      rcases List.mem_cons.1 hb with rfl | hb'
      · obtain ⟨resArgs, hmem⟩ := promote_ok_release pRL env rev_url b ha
        exact ⟨resArgs, List.mem_append_left _ hmem⟩
      · obtain ⟨resArgs, hmem⟩ := hrel b hb'
        exact ⟨resArgs, List.mem_append_right _ hmem⟩
    · intro inv hm
      rcases List.mem_append.1 hm with hm' | hm'
      · exact ⟨a, List.mem_cons_self _ _, hm'⟩
      · obtain ⟨b, hb, hmem⟩ := hsrc inv hm'
        exact ⟨b, List.mem_cons_of_mem _ hb, hmem⟩

/-- C8: the store-backend pipeline promotes the requested channels one at a
time in the caller-supplied order. When promotion fails on channel `ch` at its
release call, after succeeding on every channel in `as` before it, the
pipeline returns that release call's error (whose argument vector names `ch`),
the issued invocation trace holds a release call for every channel of `as`,
and no release call for any later channel was ever issued. -/
theorem upload_charm_store_sequential_channels
    (pRL : List Char → Option (List (List (String × String)))) (env : Env)
    (cs : CharmSource) (url : String) (configured : List (String × String))
    (destructive_mode : Bool) (as bs : List String) (ch rev_url : String)
    (ptr failTr : List Invocation) (extra : List String)
    (hbuild : env.runOk ⟨"charmcraft", packArgs cs destructive_mode⟩ = true)
    (hpush : push env cs url configured = (.ok rev_url, ptr))
    (hok : ∀ a ∈ as, (promote pRL env rev_url a).1 = .ok ())
    (hfail : promote pRL env rev_url ch =
      (.err (.processError ⟨"charm", "release" :: rev_url :: "--channel" :: ch :: extra⟩),
        failTr)) :
    ∃ tr, upload_charm_store pRL env cs url configured (as ++ ch :: bs) destructive_mode =
        (.err (.processError ⟨"charm", "release" :: rev_url :: "--channel" :: ch :: extra⟩),
          tr) ∧
      (∀ a ∈ as, ∃ resArgs,
        (⟨"charm", "release" :: rev_url :: "--channel" :: a :: resArgs⟩ : Invocation) ∈ tr) ∧
      (∀ b ∈ bs, b ∉ as → b ≠ ch → ∀ rv resArgs,
        (⟨"charm", "release" :: rv :: "--channel" :: b :: resArgs⟩ : Invocation) ∉ tr) := by
  obtain ⟨tras, hloop, hrel, hsrc⟩ := promoteLoop_ok_prefix pRL env rev_url as (ch :: bs) hok
  have hch : promoteLoop pRL env rev_url (ch :: bs) =
      (.err (.processError ⟨"charm", "release" :: rev_url :: "--channel" :: ch :: extra⟩),
        failTr) := by
    simp only [promoteLoop, hfail]
  have hloop' : promoteLoop pRL env rev_url (as ++ ch :: bs) =
      (.err (.processError ⟨"charm", "release" :: rev_url :: "--channel" :: ch :: extra⟩),
        tras ++ failTr) := by
    rw [hloop, hch]
  refine ⟨⟨"charmcraft", packArgs cs destructive_mode⟩ :: ptr ++ (tras ++ failTr), ?_, ?_, ?_⟩
  · simp only [upload_charm_store, hbuild, hpush, hloop', if_true]
  · intro a ha
    obtain ⟨resArgs, hmem⟩ := hrel a ha
    exact ⟨resArgs, by simp only [List.mem_cons, List.mem_append]; tauto⟩
  · intro b hb hbas hbch rv resArgs hmem
    simp only [List.mem_cons, List.mem_append] at hmem
    rcases hmem with (heq | hmem) | hmem | hmem
    · injection heq with htool _
      exact absurd htool (by decide)
    · have hmem' : (⟨"charm", "release" :: rv :: "--channel" :: b :: resArgs⟩ : Invocation)
          ∈ (push env cs url configured).2 := by
        rw [hpush]
        exact hmem
      rcases push_trace_tools env cs url configured _ hmem' with h1 | h1 | h1 | h1 | h1
      · exact absurd (show ("charm" : String) = "unzip" from h1) (by decide)
      · exact absurd (show ("charm" : String) = "docker" from h1) (by decide)
      · exact absurd (show ("charm" : String) = "git" from h1) (by decide)
      · exact absurd (show (some "release" : Option String) = some "push" from h1) (by decide)
      · exact absurd (show (some "release" : Option String) = some "set" from h1) (by decide)
    · obtain ⟨a, ha, hmem'⟩ := hsrc _ hmem
      rcases promote_trace pRL env rev_url a _ hmem' with heq | ⟨resArgs', heq⟩
      · injection heq with _ hargs
        injection hargs with hh _
        exact absurd hh (by decide)
      · injection heq with _ hargs
        injection hargs with _ h2
        injection h2 with _ h3
        injection h3 with _ h4
        injection h4 with hba _
        exact hbas (by rw [hba]; exact ha)
    · have hfr : (⟨"charm", "release" :: rv :: "--channel" :: b :: resArgs⟩ : Invocation)
          ∈ (promote pRL env rev_url ch).2 := by
        rw [hfail]
        exact hmem
      rcases promote_trace pRL env rev_url ch _ hfr with heq | ⟨resArgs', heq⟩
      · injection heq with _ hargs
        injection hargs with hh _
        exact absurd hh (by decide)
      · injection heq with _ hargs
        injection hargs with _ h2
        injection h2 with _ h3
        injection h3 with _ h4
        injection h4 with hbch' _
        exact hbch hbch'

/-- Fixture parse function: the list-resources output parses to no records. -/
def pRLempty : List Char → Option (List (List (String × String))) := fun _ => some []

/-- Fixture: pushing succeeds (revision `cs:app-1`, git lookup swallowed),
releasing to channel `alpha` succeeds and to any other channel fails. -/
def envPromote : Env :=
  { tempDir := .ok "/tmp/t"
    cwd := "/cwd"
    runOk := fun inv =>
      match inv.args with
      | "release" :: _ :: "--channel" :: c :: _ => c == "alpha"
      | _ => true
    outputResult := fun inv =>
      if inv.tool = "git" then none
      else if inv.args.head? = some "list-resources" then some []
      else some ("url: cs:app-1\nlogs".toList)
    stderrResult := fun _ => none }

theorem upload_charm_store_sequential_channels_witness :
    ∃ tr, upload_charm_store pRLempty envPromote csPlain "cs:app" [] ["alpha", "beta", "gamma"]
        false =
        (.err (.processError ⟨"charm", ["release", "cs:app-1", "--channel", "beta"]⟩), tr) ∧
      (∀ a ∈ ["alpha"], ∃ resArgs,
        (⟨"charm", "release" :: "cs:app-1" :: "--channel" :: a :: resArgs⟩ : Invocation) ∈ tr) ∧
      (∀ b ∈ ["gamma"], b ∉ ["alpha"] → b ≠ "beta" → ∀ rv resArgs,
        (⟨"charm", "release" :: rv :: "--channel" :: b :: resArgs⟩ : Invocation) ∉ tr) :=
  upload_charm_store_sequential_channels pRLempty envPromote csPlain "cs:app" [] false
    ["alpha"] ["gamma"] "beta" "cs:app-1"
    [⟨"unzip", ["/cwd/app_ubuntu-20.04-amd64.charm", "-d", "/tmp/t"]⟩,
     ⟨"charm", ["push", "/tmp/t", "cs:app"]⟩, ⟨"git", ["rev-parse", "HEAD"]⟩]
    [⟨"charm", ["list-resources", "cs:app-1", "--format", "yaml"]⟩,
     ⟨"charm", ["release", "cs:app-1", "--channel", "beta"]⟩] []
    (by decide) (by decide) (by decide) (by decide)

/-- Splits on a separator character, keeping empty segments. -/
def splitOnChar (sep : Char) : List Char → List (List Char)
  | [] => [[]]
  | c :: rest =>
    match splitOnChar sep rest with
    | [] => [[]]
    | l :: ls => if c = sep then [] :: l :: ls else (c :: l) :: ls

/-- Strips one trailing carriage return, as Rust `str::lines` does per line. -/
def stripTrailingCr (l : List Char) : List Char :=
  match l.getLast? with
  | some '\r' => l.dropLast
  | _ => l

/-- Model of Rust `str::lines`: split on `'\n'`, dropping the final empty
segment produced by a trailing newline and stripping one trailing `'\r'` from
each line. -/
def rustLines (s : List Char) : List (List Char) :=
  if s = [] then []
  else
    (if s.getLast? = some '\n' then (splitOnChar '\n' s).dropLast
     else splitOnChar '\n' s).map stripTrailingCr

/-- Decimal value of a digit list, most significant digit first. -/
def decimalValue : List Char → Nat :=
  List.foldl (fun acc c => 10 * acc + (c.toNat - 48)) 0

/-- Digit part of `parseU32`: one or more ascii digits whose value fits in 32
bits. -/
def parseU32digits (ds : List Char) : Option Nat :=
  if ds = [] then none
  else if ds.all (fun c => c.isDigit) then
    if decimalValue ds < 4294967296 then some (decimalValue ds) else none
  else none

/-- Model of Rust `str::parse::<u32>`: an optional leading `'+'`, then one or
more ascii digits; values of `4294967296` and above overflow and fail. -/
def parseU32 (s : List Char) : Option Nat :=
  parseU32digits (if s.head? = some '+' then s.tail else s)

/-- Output handling of `upload_charmhub` (sidecar.rs lines 343-346):
`output.drain(0..9)` panics when the stream is shorter than 9 bytes,
`truncate(position(|&x| x == 0x20).unwrap())` panics when no space byte
remains after the drain, and `from_utf8(..).unwrap().parse::<u32>().unwrap()`
panics when the remainder is not a decimal number fitting in 32 bits. -/
def parseCharmhubOutput (output : List Char) : Outcome Nat :=
  if output.length < 9 then .panicked
  else
    if ' ' ∈ output.drop 9 then
      match parseU32 ((output.drop 9).takeWhile (fun c => c ≠ ' ')) with
      | none => .panicked
      | some n => .ok n
    else .panicked

/-- Modelled from the spec:
`CharmURL::parse(url).unwrap().with_revision(Some(revision)).to_string()`
uses `crate::charm_url`, which is not under `src/`. Spec section 4.4 says to
"combine this revision with the destination identifier to form the final
published URL", and the glossary's example revision URL `cs:~ns/app-1` fixes
the format: the destination identifier with `-<revision>` appended. -/
def charmURLWithRevision (url : String) (revision : Nat) : String :=
  url ++ "-" ++ toString revision

/-- The oci-image resource loop of `upload_charmhub` (sidecar.rs lines
302-335): resolved resources whose kind is not `OciImage` are skipped; for
each `OciImage` resource the code runs
`charmcraft upload-resource <charm> <name> --image <value>` (`.unwrap()`
panics on failure), captures the stderr of
`charmcraft resource-revisions <charm> <name>` (`.unwrap()` panics on
failure), takes the second output line's first space-delimited token as the
revision (`.nth(1).unwrap()` panics when there is no second line), and emits
`--resource=name:revision`. -/
def charmhubResourceArgs (env : Env) (md : Metadata) :
    List (String × String) → Outcome (List String) × List Invocation
  | [] => (.ok [], [])
  | (name, value) :: rest =>
    match lookupList name md.resources with
    | none => (.panicked, [])
    | some r =>
      if r.kind = ResourceType.ociImage then
        if env.runOk ⟨"charmcraft", ["upload-resource", md.name, name, "--image", value]⟩ then
          match env.stderrResult ⟨"charmcraft", ["resource-revisions", md.name, name]⟩ with
          | none =>
            (.panicked, [⟨"charmcraft", ["upload-resource", md.name, name, "--image", value]⟩,
              ⟨"charmcraft", ["resource-revisions", md.name, name]⟩])
          | some out =>
            match (rustLines out).get? 1 with
            | none =>
              (.panicked, [⟨"charmcraft", ["upload-resource", md.name, name, "--image", value]⟩,
                ⟨"charmcraft", ["resource-revisions", md.name, name]⟩])
            | some line2 =>
              ((charmhubResourceArgs env md rest).1.map
                  (fun l => ("--resource=" ++ name ++ ":" ++
                    String.mk (line2.takeWhile (fun c => c ≠ ' '))) :: l),
                ⟨"charmcraft", ["upload-resource", md.name, name, "--image", value]⟩ ::
                  ⟨"charmcraft", ["resource-revisions", md.name, name]⟩ ::
                  (charmhubResourceArgs env md rest).2)
        else (.panicked, [⟨"charmcraft", ["upload-resource", md.name, name, "--image", value]⟩])
      else charmhubResourceArgs env md rest

/-- `CharmSource::upload_charmhub` (sidecar.rs lines 293-352): build, resolve
resources, upload each oci-image resource, then run `charmcraft upload` with
one `--release=<channel>` per requested channel and the accumulated
`--resource` arguments, parse its stderr for the assigned revision, and
combine that revision with the destination identifier. -/
def upload_charmhub (env : Env) (cs : CharmSource) (url : String)
    (configured : List (String × String)) (channels : List String)
    (destructive_mode : Bool) : Outcome String × List Invocation :=
  let buildInv : Invocation := ⟨"charmcraft", packArgs cs destructive_mode⟩
  if env.runOk buildInv then
    match resources_with_defaults cs configured with
    | .error e => (.err e, [buildInv])
    | .ok resources =>
      let loopTr := (charmhubResourceArgs env cs.metadata resources).2
      match (charmhubResourceArgs env cs.metadata resources).1 with
      | .ok resArgs =>
        let upInv : Invocation :=
          ⟨"charmcraft", "upload" :: artifact_path cs.metadata.name env.cwd ::
            (channels.map (fun c => "--release=" ++ c) ++ resArgs)⟩
        match env.stderrResult upInv with
        | none => (.err (.processError upInv), buildInv :: loopTr ++ [upInv])
        | some output =>
          match parseCharmhubOutput output with
          | .ok revision =>
            (.ok (charmURLWithRevision url revision), buildInv :: loopTr ++ [upInv])
          | .err e => (.err e, buildInv :: loopTr ++ [upInv])
          | .panicked => (.panicked, buildInv :: loopTr ++ [upInv])
      | .err e => (.err e, buildInv :: loopTr)
      | .panicked => (.panicked, buildInv :: loopTr)
  else (.err (.processError buildInv), [buildInv])

theorem parseCharmhubOutput_spec (pre ds rest : List Char) (hpre : pre.length = 9)
    (hne : ds ≠ []) (hds : ∀ c ∈ ds, c.isDigit = true)
    (hbound : decimalValue ds < 4294967296) :
    parseCharmhubOutput (pre ++ (ds ++ ' ' :: rest)) = .ok (decimalValue ds) := by
  have hlen : ¬(pre ++ (ds ++ ' ' :: rest)).length < 9 := by
    simp [List.length_append, hpre]
  have hdrop : (pre ++ (ds ++ ' ' :: rest)).drop 9 = ds ++ ' ' :: rest := by
    rw [← hpre]
    exact List.drop_left pre (ds ++ ' ' :: rest)
  have hmem : ' ' ∈ ds ++ ' ' :: rest := List.mem_append_right _ (List.mem_cons_self _ _)
  have htw : (ds ++ ' ' :: rest).takeWhile (fun c => c ≠ ' ') = ds :=
    takeWhile_append_cons ds ' ' rest
      (fun c hc => by
        have hd := hds c hc
        have hcs : c ≠ ' ' := by
          intro heq
          rw [heq] at hd
          exact absurd hd (by decide)
        simp [hcs])
      (by simp)
  have hplus : ds.head? ≠ some '+' := by
    cases ds with
    | nil => simp
    | cons c cs =>
      simp only [List.head?]
      intro hcc
      injection hcc with hc
      have hd := hds c (List.mem_cons_self _ _)
      rw [hc] at hd
      exact absurd hd (by decide)
  have hp : parseU32 ds = some (decimalValue ds) := by
    unfold parseU32 parseU32digits
    rw [if_neg hplus, if_neg hne, if_pos (List.all_eq_true.mpr hds), if_pos hbound]
  unfold parseCharmhubOutput
  rw [if_neg hlen, hdrop, if_pos hmem, htw, hp]

/-- C9 as amended: when the Hub-backend upload reaches its final external
call successfully and that call's output is a 9-byte prefix followed by a
decimal number and a space, and the number fits in an unsigned 32-bit
integer, `upload_charmhub` computes the published revision by dropping the
first 9 bytes, truncating at the first space byte and parsing the remainder
as a decimal number, and returns the destination identifier combined with
that revision; a number of `4294967296` or more instead panics (see the
counterexample). -/
theorem upload_charmhub_revision_parse (env : Env) (cs : CharmSource) (url : String)
    (configured : List (String × String)) (channels : List String)
    (destructive_mode : Bool) (resources : List (String × String))
    (resArgs : List String) (pre ds rest : List Char)
    (hbuild : env.runOk ⟨"charmcraft", packArgs cs destructive_mode⟩ = true)
    (hrwd : resources_with_defaults cs configured = .ok resources)
    (hloop : (charmhubResourceArgs env cs.metadata resources).1 = .ok resArgs)
    (hout : env.stderrResult
      ⟨"charmcraft", "upload" :: artifact_path cs.metadata.name env.cwd ::
        (channels.map (fun c => "--release=" ++ c) ++ resArgs)⟩ =
      some (pre ++ (ds ++ ' ' :: rest)))
    (hpre : pre.length = 9) (hne : ds ≠ []) (hds : ∀ c ∈ ds, c.isDigit = true)
    (hbound : decimalValue ds < 4294967296) :
    (upload_charmhub env cs url configured channels destructive_mode).1 =
      .ok (charmURLWithRevision url (decimalValue ds)) := by
  have hparse := parseCharmhubOutput_spec pre ds rest hpre hne hds hbound
  simp only [upload_charmhub, hbuild, hrwd, hloop, hout, hparse, if_true]

/-- Fixture: the final `charmcraft upload` call reports
`Revision 7 of 'app' created` on stderr (a 9-byte prefix `Revision `). -/
def envHub : Env :=
  { tempDir := .ok "/tmp/t"
    cwd := "/cwd"
    runOk := fun _ => true
    outputResult := fun _ => none
    stderrResult := fun _ => some ("Revision 7 of 'app' created".toList) }

theorem upload_charmhub_revision_parse_witness :
    (upload_charmhub envHub csPlain "ch:app" [] ["stable"] false).1 =
      .ok (charmURLWithRevision "ch:app" (decimalValue ['7'])) :=
  upload_charmhub_revision_parse envHub csPlain "ch:app" [] ["stable"] false [] []
    ("Revision ".toList) ['7'] ("of 'app' created".toList)
    (by decide) rfl (by decide) (by decide) (by decide) (by decide)
    (by decide) (by decide)

/-- Fixture: the final tool output carries the decimal number `4294967296`,
one past the largest unsigned 32-bit value. -/
def envHubBig : Env :=
  { tempDir := .ok "/tmp/t"
    cwd := "/cwd"
    runOk := fun _ => true
    outputResult := fun _ => none
    stderrResult := fun _ => some ("Revision 4294967296 uploaded".toList) }

/-- Counterexample to C9 as stated: the output `Revision 4294967296 uploaded`
has a 9-byte prefix and then a decimal number followed by a space, yet
`upload_charmhub` panics (`parse::<u32>().unwrap()` overflows) instead of
returning a published URL. -/
theorem upload_charmhub_large_revision_cex :
    (upload_charmhub envHubBig csPlain "ch:app" [] ["stable"] false).1 =
      Outcome.panicked := by decide

/-- Result of locating and reading one entry of a zip archive
(`archive.by_name(name)` followed by `read_to_string`): the entry may be
absent (`by_name` fails), present but unreadable, or fully read. -/
inductive ZipEntry where
  | missing (e : String)
  | readError (e : String)
  | found (contents : String)
  deriving DecidableEq, Repr

/-- A zip archive as `load_zip` observes it: the result of opening it
(`File::open` / `ZipArchive::new`) and of its two interesting entries. -/
structure ZipSource where
  openError : Option String
  config : ZipEntry
  metadata : ZipEntry
  deriving DecidableEq, Repr

/-- A source directory as `load_dir` observes it: the results of
`read(source.join("config.yaml"))` and `read(source.join("metadata.yaml"))`. -/
structure DirSource where
  config : Except String String
  metadata : Except String String
  deriving Repr

/-- `CharmSource::load_dir` (sidecar.rs lines 129-140):
`read("config.yaml").map(|bytes| from_slice(&bytes)).unwrap_or(Ok(None))?`
turns any read failure into `Ok(None)` and propagates only parse failures,
while `from_slice(&read("metadata.yaml")?)?` propagates both read and parse
failures. `pC` and `pM` model `serde_yaml::from_slice` for the two schemas
(the config target is `Option<Config>`). -/
def load_dir (pC : String → Except String (Option Config))
    (pM : String → Except String Metadata) (path : String) (d : DirSource) :
    Except JujuError CharmSource :=
  match (match d.config with
         | .error _ => Except.ok none
         | .ok s =>
           match pC s with
           | .error e => Except.error (JujuError.yamlError e)
           | .ok c => Except.ok c) with
  | .error e => .error e
  | .ok config =>
    match d.metadata with
    | .error e => .error (.ioError e)
    | .ok s =>
      match pM s with
      | .error e => .error (.yamlError e)
      | .ok metadata => .ok ⟨path, config, metadata⟩

/-- `CharmSource::load_zip` (sidecar.rs lines 142-165): a failing
`by_name("config.yaml")` is turned into `Ok(None)` by `unwrap_or(Ok(None))`,
while a read or parse failure of a located config entry propagates; the
metadata entry must be located, read and parsed, each failure propagating. -/
def load_zip (pC : String → Except String (Option Config))
    (pM : String → Except String Metadata) (path : String) (z : ZipSource) :
    Except JujuError CharmSource :=
  match z.openError with
  | some e => .error (.ioError e)
  | none =>
    match (match z.config with
           | .missing _ => Except.ok none
           | .readError e => Except.error (JujuError.ioError e)
           | .found s =>
             match pC s with
             | .error e => Except.error (JujuError.yamlError e)
             | .ok c => Except.ok c) with
    | .error e => .error e
    | .ok config =>
      match z.metadata with
      | .missing e => .error (.ioError e)
      | .readError e => .error (.ioError e)
      | .found s =>
        match pM s with
        | .error e => .error (.yamlError e)
        | .ok metadata => .ok ⟨path, config, metadata⟩

/-- What `source` denotes on disk: a regular file (zip archive) or a
directory. -/
inductive SourceLoc where
  | file (z : ZipSource)
  | dir (d : DirSource)

/-- `CharmSource::load` (sidecar.rs lines 168-174): a regular file is loaded
as a zip archive, anything else as a directory. -/
def load (pC : String → Except String (Option Config))
    (pM : String → Except String Metadata) (path : String) :
    SourceLoc → Except JujuError CharmSource
  | .file z => load_zip pC pM path z
  | .dir d => load_dir pC pM path d

/-- C6: a source (zip archive or directory) lacking a config.yaml entry loads
with `config = none`, while a source lacking a metadata.yaml entry makes
`load` fail with an error. -/
theorem load_config_optional_metadata_required :
    (∀ pC pM path z e s md, z.openError = none → z.config = ZipEntry.missing e →
      z.metadata = ZipEntry.found s → pM s = .ok md →
      load pC pM path (.file z) = .ok ⟨path, none, md⟩) ∧
    (∀ pC pM path z e, z.openError = none → z.metadata = ZipEntry.missing e →
      ∃ err, load pC pM path (.file z) = .error err) ∧
    (∀ pC pM path d e s md, d.config = .error e → d.metadata = .ok s → pM s = .ok md →
      load pC pM path (.dir d) = .ok ⟨path, none, md⟩) ∧
    (∀ pC pM path d e, d.metadata = .error e →
      ∃ err, load pC pM path (.dir d) = .error err) := by
  refine ⟨?_, ?_, ?_, ?_⟩
  · intro pC pM path z e s md hopen hcfg hmd hpm
    simp [load, load_zip, hopen, hcfg, hmd, hpm]
  · intro pC pM path z e hopen hmd
    cases hc : z.config with
    | missing e' => exact ⟨.ioError e, by simp [load, load_zip, hopen, hc, hmd]⟩
    | readError e' => exact ⟨.ioError e', by simp [load, load_zip, hopen, hc]⟩
    | found s =>
      cases hp : pC s with
      | error pe => exact ⟨.yamlError pe, by simp [load, load_zip, hopen, hc, hp]⟩
      | ok c => exact ⟨.ioError e, by simp [load, load_zip, hopen, hc, hp, hmd]⟩
  · intro pC pM path d e s md hcfg hmd hpm
    simp [load, load_dir, hcfg, hmd, hpm]
  · intro pC pM path d e hmd
    cases hc : d.config with
    | error e' => exact ⟨.ioError e, by simp [load, load_dir, hc, hmd]⟩
    | ok s =>
      cases hp : pC s with
      | error pe => exact ⟨.yamlError pe, by simp [load, load_dir, hc, hp]⟩
      | ok c => exact ⟨.ioError e, by simp [load, load_dir, hc, hp, hmd]⟩

/-- Fixture parsers: the config parser always yields `none`, the metadata
parser always yields `csPlain`'s metadata. -/
def pCnone : String → Except String (Option Config) := fun _ => .ok none

/-- Fixture metadata parser returning `csPlain`'s metadata. -/
def pMplain : String → Except String Metadata := fun _ => .ok csPlain.metadata

/-- Fixture: zip archive with no config.yaml entry. -/
def zipNoConfig : ZipSource :=
  { openError := none, config := .missing "file not found", metadata := .found "metadata" }

/-- Fixture: zip archive with no metadata.yaml entry. -/
def zipNoMetadata : ZipSource :=
  { openError := none, config := .missing "file not found", metadata := .missing "file not found" }

/-- Fixture: directory whose config.yaml read fails with a permission error. -/
def dirNoConfig : DirSource :=
  { config := .error "permission denied", metadata := .ok "metadata" }

/-- Fixture: directory with no readable metadata.yaml. -/
def dirNoMetadata : DirSource :=
  { config := .error "file not found", metadata := .error "file not found" }

theorem load_config_optional_metadata_required_witness :
    load pCnone pMplain "p" (.file zipNoConfig) = .ok ⟨"p", none, csPlain.metadata⟩ ∧
    (∃ err, load pCnone pMplain "p" (.file zipNoMetadata) = .error err) ∧
    load pCnone pMplain "p" (.dir dirNoConfig) = .ok ⟨"p", none, csPlain.metadata⟩ ∧
    (∃ err, load pCnone pMplain "p" (.dir dirNoMetadata) = .error err) :=
  ⟨load_config_optional_metadata_required.1 pCnone pMplain "p" zipNoConfig
      "file not found" "metadata" csPlain.metadata rfl rfl rfl rfl,
    load_config_optional_metadata_required.2.1 pCnone pMplain "p" zipNoMetadata
      "file not found" rfl rfl,
    load_config_optional_metadata_required.2.2.1 pCnone pMplain "p" dirNoConfig
      "permission denied" "metadata" csPlain.metadata rfl rfl rfl,
    load_config_optional_metadata_required.2.2.2 pCnone pMplain "p" dirNoMetadata
      "file not found" rfl⟩

/-- C10: when loading from a directory, any failure to read config.yaml —
absence or e.g. a permission failure — silently yields `config = none`
(likewise a failure to locate config.yaml in a zip archive), and a parse
failure of a successfully read config.yaml propagates as an error. -/
theorem load_dir_config_read_error_silent :
    (∀ pC pM path d e s md, d.config = .error e → d.metadata = .ok s → pM s = .ok md →
      load pC pM path (.dir d) = .ok ⟨path, none, md⟩) ∧
    (∀ pC pM path d s pe, d.config = .ok s → pC s = .error pe →
      load pC pM path (.dir d) = .error (.yamlError pe)) ∧
    (∀ pC pM path z e s md, z.openError = none → z.config = ZipEntry.missing e →
      z.metadata = ZipEntry.found s → pM s = .ok md →
      load pC pM path (.file z) = .ok ⟨path, none, md⟩) := by
  refine ⟨?_, ?_, ?_⟩
  · intro pC pM path d e s md hcfg hmd hpm
    simp [load, load_dir, hcfg, hmd, hpm]
  · intro pC pM path d s pe hcfg hp
    simp [load, load_dir, hcfg, hp]
  · intro pC pM path z e s md hopen hcfg hmd hpm
    simp [load, load_zip, hopen, hcfg, hmd, hpm]

/-- Fixture: directory whose config.yaml reads fine but does not parse. -/
def dirBadConfig : DirSource :=
  { config := .ok "not yaml", metadata := .ok "metadata" }

/-- Fixture config parser that rejects every document. -/
def pCfail : String → Except String (Option Config) := fun _ => .error "parse failure"

theorem load_dir_config_read_error_silent_witness :
    load pCnone pMplain "p" (.dir dirNoConfig) = .ok ⟨"p", none, csPlain.metadata⟩ ∧
    load pCfail pMplain "p" (.dir dirBadConfig) = .error (.yamlError "parse failure") ∧
    load pCnone pMplain "p" (.file zipNoConfig) = .ok ⟨"p", none, csPlain.metadata⟩ :=
  ⟨load_dir_config_read_error_silent.1 pCnone pMplain "p" dirNoConfig
      "permission denied" "metadata" csPlain.metadata rfl rfl rfl,
    load_dir_config_read_error_silent.2.1 pCfail pMplain "p" dirBadConfig
      "not yaml" "parse failure" rfl rfl,
    load_dir_config_read_error_silent.2.2 pCnone pMplain "p" zipNoConfig
      "file not found" "metadata" csPlain.metadata rfl rfl rfl rfl⟩

/-- A YAML value, as far as the schemas of this crate need it. The serde
deserializers for the schema types are generated by `#[derive(Deserialize)]`
and are not part of the source tree; each `parseX` below models the
deserializer generated for `X` from its declaration in `sidecar.rs` under
`#[serde(deny_unknown_fields, rename_all = "kebab-case")]`: every record
rejects keys outside its declared field set and duplicate keys (serde's
"duplicate field" error, the `keysNodup` check). Keys of map-typed fields may
repeat in this model, which no theorem below relies on. -/
inductive Yaml where
  | str (s : String)
  | int (n : Int)
  | bool (b : Bool)
  | null
  | map (entries : List (String × Yaml))
  | seq (items : List Yaml)

/-- Are all keys of a record within the allowed field set? -/
def keysSubset (allowed : List String) (es : List (String × Yaml)) : Bool :=
  es.all (fun kv => allowed.contains kv.1)

/-- Does a record hold no duplicate keys? -/
def keysNodup {α : Type} : List (String × α) → Bool
  | [] => true
  | (k, _) :: rest => !(rest.any (fun kv => kv.1 = k)) && keysNodup rest

/-- Deserializer for an `Option<String>` field: an absent field defaults to
`None`, an explicit null is `None`, a string is `Some`. -/
def parseOptStr : Option Yaml → Option (Option String)
  | none => some none
  | some .null => some none
  | some (.str s) => some (some s)
  | some _ => none

/-- Model of the deserializer derived for `ConfigOption` (sidecar.rs lines
17-33): internally tagged on `type` with variants renamed `string` / `int` /
`boolean`, keys limited to `type`, `default` and `description`, a mandatory
string `description`, and a `default` matching the variant (optional for
strings, a mandatory integer or boolean otherwise). -/
def parseConfigOption (y : Yaml) : Option ConfigOption :=
  match y with
  | .map es =>
    if keysNodup es && keysSubset ["type", "default", "description"] es then
      match lookupList "type" es, lookupList "description" es with
      | some (.str t), some (.str d) =>
        if t = "string" then
          (parseOptStr (lookupList "default" es)).map (fun dv => .string dv d)
        else if t = "int" then
          match lookupList "default" es with
          | some (.int n) => some (.integer n d)
          | _ => none
        else if t = "boolean" then
          match lookupList "default" es with
          | some (.bool b) => some (.boolean b d)
          | _ => none
        else none
      | _, _ => none
    else none
  | _ => none

/-- Deserializes every value of a key-value record with `pv`. -/
def parseEntries {α : Type} (pv : Yaml → Option α) :
    List (String × Yaml) → Option (List (String × α))
  | [] => some []
  | (k, v) :: rest =>
    (pv v).bind (fun a => (parseEntries pv rest).map (fun l => (k, a) :: l))

/-- Model of the deserializer for `HashMap<String, X>`: the node must be a
mapping and every value must deserialize. -/
def parseStringMap {α : Type} (pv : Yaml → Option α) : Yaml → Option (List (String × α))
  | .map es => parseEntries pv es
  | _ => none

/-- Model of the deserializer derived for `Config` (sidecar.rs lines 35-40):
a single mandatory `options` mapping. -/
def parseConfig (y : Yaml) : Option Config :=
  match y with
  | .map es =>
    if keysNodup es && keysSubset ["options"] es then
      match lookupList "options" es with
      | some ov => (parseStringMap parseConfigOption ov).map Config.mk
      | none => none
    else none
  | _ => none

/-- Model of the deserializer derived for `Container` (sidecar.rs lines
42-47): a single mandatory string field `resource`. -/
def parseContainer (y : Yaml) : Option Container :=
  match y with
  | .map es =>
    if keysNodup es && keysSubset ["resource"] es then
      match lookupList "resource" es with
      | some (.str r) => some ⟨r⟩
      | _ => none
    else none
  | _ => none

/-- Model of the deserializer derived for `ResourceType` (sidecar.rs lines
49-56): a kebab-case unit variant name. -/
def parseResourceType : Yaml → Option ResourceType
  | .str "file" => some .file
  | .str "oci-image" => some .ociImage
  | .str "pypi" => some .pypi
  | .str "url" => some .url
  | _ => none

/-- Model of the deserializer derived for `Resource` (sidecar.rs lines
58-65): keys `type` (renamed from `kind`), `description` and
`upstream-source`, the first two mandatory. -/
def parseResource (y : Yaml) : Option Resource :=
  match y with
  | .map es =>
    if keysNodup es && keysSubset ["type", "description", "upstream-source"] es then
      match lookupList "type" es, lookupList "description" es with
      | some ty, some (.str d) =>
        (parseResourceType ty).bind (fun k =>
          (parseOptStr (lookupList "upstream-source" es)).map (fun us => ⟨k, d, us⟩))
      | _, _ => none
    else none
  | _ => none

/-- Deserializer for an `Option<RelationScope>` field. -/
def parseOptScope : Option Yaml → Option (Option RelationScope)
  | none => some none
  | some .null => some none
  | some (.str "global") => some (some .global)
  | some (.str "container") => some (some .container)
  | some _ => none

/-- Deserializes a sequence of strings. -/
def parseStrings : List Yaml → Option (List String)
  | [] => some []
  | .str s :: rest => (parseStrings rest).map (fun l => s :: l)
  | _ => none

/-- Deserializer for the `versions` field (`#[serde(default)] Vec<String>`):
absent means empty. -/
def parseVersions : Option Yaml → Option (List String)
  | none => some []
  | some (.seq items) => parseStrings items
  | some _ => none

/-- Model of the deserializer derived for `Interface` (sidecar.rs lines
74-82): mandatory string `interface`, optional `scope` and `schema`,
defaulted `versions`. -/
def parseInterface (y : Yaml) : Option Interface :=
  match y with
  | .map es =>
    if keysNodup es && keysSubset ["interface", "scope", "schema", "versions"] es then
      match lookupList "interface" es with
      | some (.str i) =>
        (parseOptScope (lookupList "scope" es)).bind (fun sc =>
          (parseOptStr (lookupList "schema" es)).bind (fun sch =>
            (parseVersions (lookupList "versions" es)).map (fun vs => ⟨i, sc, sch, vs⟩)))
      | _ => none
    else none
  | _ => none

/-- The declared top-level fields of `Metadata` (sidecar.rs lines 84-112). -/
def metadataKeys : List String :=
  ["name", "description", "summary", "containers", "resources", "requires", "provides"]

/-- Deserializer for a `#[serde(default)] HashMap<String, X>` field: absent
means empty. -/
def parseDefaultedMap {α : Type} (pv : Yaml → Option α) :
    Option Yaml → Option (List (String × α))
  | none => some []
  | some y => parseStringMap pv y

/-- Model of the deserializer derived for `Metadata` (sidecar.rs lines
84-112): mandatory strings `name`, `description`, `summary`; defaulted
mappings `containers`, `resources`, `requires`, `provides`. -/
def parseMetadata (y : Yaml) : Option Metadata :=
  match y with
  | .map es =>
    if keysNodup es && keysSubset metadataKeys es then
      match lookupList "name" es, lookupList "description" es, lookupList "summary" es with
      | some (.str n), some (.str d), some (.str s) =>
        (parseDefaultedMap parseContainer (lookupList "containers" es)).bind (fun cs =>
          (parseDefaultedMap parseResource (lookupList "resources" es)).bind (fun rs =>
            (parseDefaultedMap parseInterface (lookupList "requires" es)).bind (fun req =>
              (parseDefaultedMap parseInterface (lookupList "provides" es)).map (fun prov =>
                ⟨n, d, s, cs, rs, req, prov⟩))))
      | _, _, _ => none
    else none
  | _ => none

/-- Does a record node hold a key outside `allowed`? -/
def recordUnknown (allowed : List String) : Yaml → Bool
  | .map es => es.any (fun kv => !(allowed.contains kv.1))
  | _ => false

/-- Does a mapping node hold some record value with a key outside `allowed`? -/
def recordsUnknownIn (allowed : List String) : Yaml → Bool
  | .map ces => ces.any (fun c => recordUnknown allowed c.2)
  | _ => false

/-- Does the value at `topKey` hold a nested record with a key outside
`allowed`? -/
def nestedUnknown (topKey : String) (allowed : List String)
    (es : List (String × Yaml)) : Bool :=
  es.any (fun kv => kv.1 = topKey && recordsUnknownIn allowed kv.2)

/-- A metadata.yaml document holding a field undeclared in the schema, at the
top level or nested inside any container, resource or interface record. -/
def metadataUnknownField : Yaml → Bool
  | .map es =>
    es.any (fun kv => !(metadataKeys.contains kv.1)) ||
    nestedUnknown "containers" ["resource"] es ||
    nestedUnknown "resources" ["type", "description", "upstream-source"] es ||
    nestedUnknown "requires" ["interface", "scope", "schema", "versions"] es ||
    nestedUnknown "provides" ["interface", "scope", "schema", "versions"] es
  | _ => false

/-- A config.yaml document holding a field undeclared in the schema, at the
top level or nested inside any option record. -/
def configUnknownField : Yaml → Bool
  | .map es =>
    es.any (fun kv => !(["options"].contains kv.1)) ||
    nestedUnknown "options" ["type", "default", "description"] es
  | _ => false

theorem any_unknown_key_false (allowed : List String) (es : List (String × Yaml))
    (h : keysSubset allowed es = true) :
    (es.any fun kv => !(allowed.contains kv.1)) = false := by
  rw [Bool.eq_false_iff]
  intro hany
  obtain ⟨kv, hkv, hb⟩ := List.any_eq_true.mp hany
  have hc := List.all_eq_true.mp h kv hkv
  rw [hc] at hb
  exact absurd hb (by simp)

theorem lookup_of_mem_nodup {α : Type} :
    ∀ (es : List (String × α)) (k : String) (v : α),
      keysNodup es = true → (k, v) ∈ es → lookupList k es = some v
  | [], k, v, _, hmem => by simp at hmem
  | (k', v') :: rest, k, v, hnd, hmem => by
    obtain ⟨hnone, hnd'⟩ := Bool.and_eq_true_iff.mp hnd
    rcases List.mem_cons.1 hmem with heq | hm
    · injection heq with h1 h2
      subst h1
      subst h2
      simp [lookupList]
    · have hne : k' ≠ k := by
        intro heq
        subst heq
        have : rest.any (fun kv => kv.1 = k') = true :=
          List.any_eq_true.mpr ⟨(k', v), hm, by simp⟩
        rw [this] at hnone
        exact absurd hnone (by simp)
      simp only [lookupList, if_neg hne]
      exact lookup_of_mem_nodup rest k v hnd' hm

theorem parseEntries_sound {α : Type} (pv : Yaml → Option α) :
    ∀ (es : List (String × Yaml)) (l : List (String × α)),
      parseEntries pv es = some l → ∀ kv ∈ es, ∃ a, pv kv.2 = some a
  | [], l, _, kv, hm => by simp at hm
  | (k, v) :: rest, l, h, kv, hm => by
    simp only [parseEntries] at h
    obtain ⟨a, hpa, hrest⟩ := Option.bind_eq_some.mp h
    obtain ⟨l', hl', _⟩ := Option.map_eq_some'.mp hrest
    rcases List.mem_cons.1 hm with heq | hm'
    · subst heq
      exact ⟨a, hpa⟩
    · exact parseEntries_sound pv rest l' hl' kv hm'

theorem nestedUnknown_extract (topKey : String) (allowed : List String)
    (es : List (String × Yaml)) (hnd : keysNodup es = true)
    (h : nestedUnknown topKey allowed es = true) :
    ∃ ces, lookupList topKey es = some (.map ces) ∧
      ∃ c ∈ ces, recordUnknown allowed c.2 = true := by
  obtain ⟨kv, hkv, hpred⟩ := List.any_eq_true.mp h
  obtain ⟨hk1, hbad⟩ := Bool.and_eq_true_iff.mp hpred
  have hk1' : kv.1 = topKey := of_decide_eq_true hk1
  cases hv : kv.2 with
  | map ces =>
    refine ⟨ces, ?_, ?_⟩
    · have hlk := lookup_of_mem_nodup es kv.1 kv.2 hnd hkv
      rw [hk1', hv] at hlk
      exact hlk
    · rw [hv] at hbad
      simp only [recordsUnknownIn] at hbad
      exact List.any_eq_true.mp hbad
  | str s => rw [hv] at hbad; simp [recordsUnknownIn] at hbad
  | int n => rw [hv] at hbad; simp [recordsUnknownIn] at hbad
  | bool b => rw [hv] at hbad; simp [recordsUnknownIn] at hbad
  | null => rw [hv] at hbad; simp [recordsUnknownIn] at hbad
  | seq items => rw [hv] at hbad; simp [recordsUnknownIn] at hbad

theorem parseContainer_known (z : Yaml) (c : Container) (h : parseContainer z = some c) :
    recordUnknown ["resource"] z = false := by
  cases z with
  | map es =>
    simp only [parseContainer] at h
    by_cases hcond : (keysNodup es && keysSubset ["resource"] es) = true
    · simp only [recordUnknown]
      exact any_unknown_key_false _ es (Bool.and_eq_true_iff.mp hcond).2
    · rw [if_neg hcond] at h
      exact absurd h (by simp)
  | str s => rfl
  | int n => rfl
  | bool b => rfl
  | null => rfl
  | seq items => rfl

theorem parseResource_known (z : Yaml) (r : Resource) (h : parseResource z = some r) :
    recordUnknown ["type", "description", "upstream-source"] z = false := by
  cases z with
  | map es =>
    simp only [parseResource] at h
    by_cases hcond : (keysNodup es && keysSubset ["type", "description", "upstream-source"] es)
        = true
    · simp only [recordUnknown]
      exact any_unknown_key_false _ es (Bool.and_eq_true_iff.mp hcond).2
    · rw [if_neg hcond] at h
      exact absurd h (by simp)
  | str s => rfl
  | int n => rfl
  | bool b => rfl
  | null => rfl
  | seq items => rfl

theorem parseInterface_known (z : Yaml) (i : Interface) (h : parseInterface z = some i) :
    recordUnknown ["interface", "scope", "schema", "versions"] z = false := by
  cases z with
  | map es =>
    simp only [parseInterface] at h
    by_cases hcond : (keysNodup es && keysSubset ["interface", "scope", "schema", "versions"] es)
        = true
    · simp only [recordUnknown]
      exact any_unknown_key_false _ es (Bool.and_eq_true_iff.mp hcond).2
    · rw [if_neg hcond] at h
      exact absurd h (by simp)
  | str s => rfl
  | int n => rfl
  | bool b => rfl
  | null => rfl
  | seq items => rfl

theorem parseConfigOption_known (z : Yaml) (o : ConfigOption)
    (h : parseConfigOption z = some o) :
    recordUnknown ["type", "default", "description"] z = false := by
  cases z with
  | map es =>
    simp only [parseConfigOption] at h
    by_cases hcond : (keysNodup es && keysSubset ["type", "default", "description"] es) = true
    · simp only [recordUnknown]
      exact any_unknown_key_false _ es (Bool.and_eq_true_iff.mp hcond).2
    · rw [if_neg hcond] at h
      exact absurd h (by simp)
  | str s => rfl
  | int n => rfl
  | bool b => rfl
  | null => rfl
  | seq items => rfl

theorem nested_no_unknown {α : Type} (pv : Yaml → Option α) (allowed : List String)
    (topKey : String) (hknown : ∀ z a, pv z = some a → recordUnknown allowed z = false)
    (es : List (String × Yaml)) (hnd : keysNodup es = true) (l : List (String × α))
    (hparse : parseDefaultedMap pv (lookupList topKey es) = some l) :
    nestedUnknown topKey allowed es = false := by
  rw [Bool.eq_false_iff]
  intro hbad
  obtain ⟨ces, hlook, c, hc, hcu⟩ := nestedUnknown_extract topKey allowed es hnd hbad
  rw [hlook] at hparse
  simp only [parseDefaultedMap, parseStringMap] at hparse
  obtain ⟨a, hpa⟩ := parseEntries_sound pv ces l hparse c hc
  rw [hknown c.2 a hpa] at hcu
  exact absurd hcu (by simp)

/-- C7: a config.yaml or metadata.yaml document holding a field undeclared in
the schema — at the top level or nested inside any option, container,
resource or interface record — never deserializes: `deny_unknown_fields`
rejects it with a schema-parse error rather than silently ignoring it. -/
theorem unknown_fields_rejected :
    (∀ y, metadataUnknownField y = true → parseMetadata y = none) ∧
    (∀ y, configUnknownField y = true → parseConfig y = none) := by
  constructor
  · intro y hu
    cases hsome : parseMetadata y with
    | none => rfl
    | some m =>
      exfalso
      cases y with
      | map es =>
        simp only [parseMetadata] at hsome
        by_cases hcond : (keysNodup es && keysSubset metadataKeys es) = true
        · rw [if_pos hcond] at hsome
          obtain ⟨hnd, hsub⟩ := Bool.and_eq_true_iff.mp hcond
          simp only [metadataUnknownField, Bool.or_eq_true] at hu
          split at hsome
          · obtain ⟨cs', hA, hrest⟩ := Option.bind_eq_some.mp hsome
            obtain ⟨rs', hB, hrest2⟩ := Option.bind_eq_some.mp hrest
            obtain ⟨req', hC, hrest3⟩ := Option.bind_eq_some.mp hrest2
            obtain ⟨prov', hD, _⟩ := Option.map_eq_some'.mp hrest3
            rcases hu with (((htop | hcont) | hres) | hreq) | hprov
            · rw [any_unknown_key_false metadataKeys es hsub] at htop
              exact absurd htop (by simp)
            · rw [nested_no_unknown parseContainer ["resource"] "containers"
                parseContainer_known es hnd cs' hA] at hcont
              exact absurd hcont (by simp)
            · rw [nested_no_unknown parseResource ["type", "description", "upstream-source"]
                "resources" parseResource_known es hnd rs' hB] at hres
              exact absurd hres (by simp)
            · rw [nested_no_unknown parseInterface ["interface", "scope", "schema", "versions"]
                "requires" parseInterface_known es hnd req' hC] at hreq
              exact absurd hreq (by simp)
            · rw [nested_no_unknown parseInterface ["interface", "scope", "schema", "versions"]
                "provides" parseInterface_known es hnd prov' hD] at hprov
              exact absurd hprov (by simp)
          · exact absurd hsome (by simp)
        · rw [if_neg hcond] at hsome
          exact absurd hsome (by simp)
      | str s => simp [parseMetadata] at hsome
      | int n => simp [parseMetadata] at hsome
      | bool b => simp [parseMetadata] at hsome
      | null => simp [parseMetadata] at hsome
      | seq items => simp [parseMetadata] at hsome
  · intro y hu
    cases hsome : parseConfig y with
    | none => rfl
    | some cfg =>
      exfalso
      cases y with
      | map es =>
        simp only [parseConfig] at hsome
        by_cases hcond : (keysNodup es && keysSubset ["options"] es) = true
        · rw [if_pos hcond] at hsome
          obtain ⟨hnd, hsub⟩ := Bool.and_eq_true_iff.mp hcond
          simp only [configUnknownField, Bool.or_eq_true] at hu
          rcases hu with htop | hopt
          · rw [any_unknown_key_false ["options"] es hsub] at htop
            exact absurd htop (by simp)
          · split at hsome
            · rename_i ov hov
              obtain ⟨l, hl, _⟩ := Option.map_eq_some'.mp hsome
              obtain ⟨ces, hlook, c, hc, hcu⟩ :=
                nestedUnknown_extract "options" ["type", "default", "description"] es hnd hopt
              rw [hov] at hlook
              injection hlook with hov'
              subst hov'
              simp only [parseStringMap] at hl
              obtain ⟨a, hpa⟩ := parseEntries_sound parseConfigOption ces l hl c hc
              rw [parseConfigOption_known c.2 a hpa] at hcu
              exact absurd hcu (by simp)
            · exact absurd hsome (by simp)
        · rw [if_neg hcond] at hsome
          exact absurd hsome (by simp)
      | str s => simp [parseConfig] at hsome
      | int n => simp [parseConfig] at hsome
      | bool b => simp [parseConfig] at hsome
      | null => simp [parseConfig] at hsome
      | seq items => simp [parseConfig] at hsome

/-- Sanity check: a minimal valid metadata document with all optional
sections absent parses, yielding empty mappings. -/
theorem parseMetadata_minimal :
    parseMetadata (.map [("name", .str "a"), ("description", .str "b"),
      ("summary", .str "c")]) = some ⟨"a", "b", "c", [], [], [], []⟩ := by decide

/-- Fixture: metadata document with an undeclared top-level field `oops`. -/
def mdBadTop : Yaml :=
  .map [("name", .str "a"), ("description", .str "b"), ("summary", .str "c"),
    ("oops", .str "d")]

/-- Fixture: metadata document whose resource record misspells
`upstream-source` as `upstream`. -/
def mdBadNested : Yaml :=
  .map [("name", .str "a"), ("description", .str "b"), ("summary", .str "c"),
    ("resources", .map [("img", .map [("type", .str "oci-image"),
      ("description", .str "x"), ("upstream", .str "ubuntu:20.04")])])]

/-- Fixture: config document whose option record misspells `default`. -/
def cfgBad : Yaml :=
  .map [("options", .map [("opt", .map [("type", .str "string"),
    ("description", .str "d"), ("defualt", .str "v")])])]

theorem unknown_fields_rejected_witness :
    metadataUnknownField mdBadTop = true ∧ parseMetadata mdBadTop = none ∧
    metadataUnknownField mdBadNested = true ∧ parseMetadata mdBadNested = none ∧
    configUnknownField cfgBad = true ∧ parseConfig cfgBad = none :=
  ⟨by decide, unknown_fields_rejected.1 mdBadTop (by decide),
    by decide, unknown_fields_rejected.1 mdBadNested (by decide),
    by decide, unknown_fields_rejected.2 cfgBad (by decide)⟩
